import Mathlib

/-!
Verification of the `polars_kde` KDE engine against its specification.

The repository ships Python wrappers (`polars_kde/__init__.py`), tests
(`tests/test_kde.py`) and a benchmark notebook; the numerical engine they
register (functions `kde_agg`, `kde_static_evals`, `kde_dynamic_evals`) is a
compiled plugin whose source is not part of the visible tree.  Definitions
below that embed the engine are therefore modelled from the specification
text (each marked `Modelled from the spec:`), while the registration
metadata and output dtypes are embedded from the Python source and its
tests.  Floating-point arithmetic is modelled by exact real arithmetic.
-/

namespace PolarsKde

/-- Modelled from the spec: the standard normal kernel
`φ(u) = (1/√(2π)) * exp(−u²/2)` used by the KDE Kernel Evaluator (§4.2). -/
noncomputable def gaussKernel (u : ℝ) : ℝ :=
  (1 / Real.sqrt (2 * Real.pi)) * Real.exp (-(u ^ 2) / 2)

/-- Modelled from the spec: the inner accumulation loop of the KDE Kernel
Evaluator — for one query point `x`, sum `φ((x − sample_i) / h)` over the
sample, accumulating left to right (§4.2). -/
noncomputable def kdeSumAt (sample : List ℝ) (h x : ℝ) : ℝ :=
  sample.foldl (fun acc s => acc + gaussKernel ((x - s) / h)) 0

/-- Modelled from the spec: the density at one query point,
`(1 / (n * h)) * Σ_i φ((x − sample_i) / h)` (§4.2). -/
noncomputable def kdeEvalPoint (sample : List ℝ) (h x : ℝ) : ℝ :=
  (1 / ((sample.length : ℝ) * h)) * kdeSumAt sample h x

/-- Modelled from the spec: the KDE Kernel Evaluator (§4.2).  For `h ≠ 0`
each query point maps to the Gaussian-KDE density; for `h = 0` the
documented degenerate policy returns `0` at every query point.  The result
always has one entry per query point. -/
noncomputable def kdeEvaluate (sample : List ℝ) (h : ℝ) (points : List ℝ) :
    List ℝ :=
  if h = 0 then points.map (fun _ => 0)
  else points.map (fun x => kdeEvalPoint sample h x)

/-- Modelled from the spec: the error taxonomy of §7 (`ShapeMismatch` is a
call-level error and lives in `CallError`). -/
inductive KdeError where
  | emptyPopulation
  | invalidInput
  | missingInput
  deriving DecidableEq, Repr

/-- Modelled from the spec: the Bandwidth Estimator (§4.1).  `n = 0`
signals `EmptyPopulation`; `n = 1` yields bandwidth `0`; otherwise the
unbiased sample standard deviation times the Scott factor `n^(-1/5)`. -/
noncomputable def estimateBandwidth (xs : List ℝ) : Except KdeError ℝ :=
  if xs.length = 0 then .error .emptyPopulation
  else if xs.length = 1 then .ok 0
  else
    let n : ℝ := (xs.length : ℝ)
    let mean : ℝ := xs.foldl (fun acc v => acc + v) 0 / n
    let ssd : ℝ := xs.foldl (fun acc v => acc + (v - mean) ^ 2) 0
    let s : ℝ := Real.sqrt (ssd / (n - 1))
    .ok (s * n ^ (-(1 / 5) : ℝ))

/-- Modelled from the spec: the two caller-selectable failure policies of
§4.4/§7 — fail-fast aborts the whole call at the first per-row error;
best-effort (the spec's "partial-failure" configuration) nulls only the
affected row. -/
inductive FailurePolicy where
  | failFast
  | bestEffort
  deriving DecidableEq, Repr

/-- Modelled from the spec: call-level failures (§7): a structural
`ShapeMismatch`, or (under fail-fast) the first per-row error together with
the offending group key / row index. -/
inductive CallError (κ : Type) where
  | shapeMismatch
  | rowError (key : κ) (err : KdeError)
  deriving DecidableEq, Repr

/-- Modelled from the spec: one row/group of a pre-grouped (static) call —
a null Population signals `MissingInput`; otherwise bandwidth estimation
followed by kernel evaluation at the shared points (§4.3, §4.4). -/
noncomputable def evalRow (pop : Option (List ℝ)) (pts : List ℝ) :
    Except KdeError (List ℝ) :=
  match pop with
  | none => .error .missingInput
  | some xs => (estimateBandwidth xs).map (fun h => kdeEvaluate xs h pts)

/-- Modelled from the spec: one row of a dynamic call — a null Population
or null EvaluationPoints entry signals `MissingInput` for that row only;
otherwise that row's own points are used (§4.3). -/
noncomputable def evalRowDyn (pop pts : Option (List ℝ)) :
    Except KdeError (List ℝ) :=
  match pop, pts with
  | none, _ => .error .missingInput
  | some _, none => .error .missingInput
  | some xs, some ps => (estimateBandwidth xs).map (fun h => kdeEvaluate xs h ps)

/-- Modelled from the spec: fail-fast assembly (§4.4) — the first erroring
row aborts the whole call, reporting the offending key. -/
def assembleFailFast {κ : Type} :
    List (κ × Except KdeError (List ℝ)) →
      Except (CallError κ) (List (Option (List ℝ)))
  | [] => .ok []
  | (k, .error e) :: _ => .error (.rowError k e)
  | (_, .ok d) :: rest => (assembleFailFast rest).map (fun t => some d :: t)

/-- Modelled from the spec: output assembly under the configured policy
(§4.4): fail-fast propagates the first row error as a whole-call failure;
best-effort represents each erroring row as a null entry while every other
row keeps its result. -/
def assemble {κ : Type} (policy : FailurePolicy)
    (rows : List (κ × Except KdeError (List ℝ))) :
    Except (CallError κ) (List (Option (List ℝ))) :=
  match policy with
  | .failFast => assembleFailFast rows
  | .bestEffort => .ok (rows.map (fun r => r.2.toOption))

/-- Pair each list element with its row index, starting at `n`. -/
def withIdx {α : Type} : Nat → List α → List (Nat × α)
  | _, [] => []
  | n, a :: rest => (n, a) :: withIdx (n + 1) rest

/-- Modelled from the spec: the static-mode driver `kde_static_evals`
(§4.3, §4.4) — each row already is one Population; the shared points are
passed to every row; rows are keyed by their index. -/
noncomputable def kdeStaticEvals (policy : FailurePolicy)
    (pops : List (Option (List ℝ))) (pts : List ℝ) :
    Except (CallError Nat) (List (Option (List ℝ))) :=
  assemble policy ((withIdx 0 pops).map (fun r => (r.1, evalRow r.2 pts)))

/-- Modelled from the spec: the dynamic-mode driver `kde_dynamic_evals`
(§4.3, §6) — the two columns must have the same row count, else the whole
call fails with `ShapeMismatch`; each row is evaluated at its own points. -/
noncomputable def kdeDynamicEvals (policy : FailurePolicy)
    (pops evals : List (Option (List ℝ))) :
    Except (CallError Nat) (List (Option (List ℝ))) :=
  if pops.length = evals.length then
    assemble policy
      ((withIdx 0 (pops.zip evals)).map (fun r => (r.1, evalRowDyn r.2.1 r.2.2)))
  else .error .shapeMismatch

/-- Modelled from the spec: the canonical group order of aggregating mode —
distinct keys in order of first appearance (§4.4, §8). -/
def firstSeen {κ : Type} [DecidableEq κ] : List κ → List κ
  | [] => []
  | k :: rest => k :: (firstSeen rest).filter (fun x => x ≠ k)

/-- Modelled from the spec: the Population of one group key — all values of
the input rows carrying that key, in input order (§4.4). -/
def groupValues {κ : Type} [DecidableEq κ] (rows : List (κ × ℝ)) (k : κ) :
    List ℝ :=
  (rows.filter (fun r => r.1 = k)).map (fun r => r.2)

/-- Modelled from the spec: the group keys of an aggregating call, in
first-seen order (§4.4). -/
def aggKeys {κ : Type} [DecidableEq κ] (rows : List (κ × ℝ)) : List κ :=
  firstSeen (rows.map (fun r => r.1))

/-- Modelled from the spec: the aggregating-mode driver `kde` (§4.4) —
partition the value column by key in first-seen order, then estimate and
evaluate each group against the shared points. -/
noncomputable def kdeAgg {κ : Type} [DecidableEq κ] (policy : FailurePolicy)
    (rows : List (κ × ℝ)) (pts : List ℝ) :
    Except (CallError κ) (List (Option (List ℝ))) :=
  assemble policy
    ((aggKeys rows).map (fun k => (k, evalRow (some (groupValues rows k)) pts)))

/-- Polars data types, as far as the repository's tests mention them. -/
inductive PlDtype where
  | float32
  | float64
  | int64
  | list (elem : PlDtype)
  deriving DecidableEq, Repr

/-- Registration metadata passed to `register_plugin_function` in
`polars_kde/__init__.py` (defaults of omitted keyword arguments filled in
as `false`, polars' documented default). -/
structure PluginRegistration where
  function_name : String
  is_elementwise : Bool
  returns_scalar : Bool
  kwargs_keys : List String
  deriving DecidableEq, Repr

/-- From `polars_kde/__init__.py`, `kde`: registers `kde_agg` with
`is_elementwise=False, returns_scalar=False` and forwards only the
`eval_points` keyword argument. -/
def kdeRegistration : PluginRegistration :=
  { function_name := "kde_agg", is_elementwise := false,
    returns_scalar := false, kwargs_keys := ["eval_points"] }

/-- From `polars_kde/__init__.py`, `kde_static_evals`: registers
`kde_static_evals` with `is_elementwise=True` and forwards only the
`eval_points` keyword argument. -/
def kdeStaticRegistration : PluginRegistration :=
  { function_name := "kde_static_evals", is_elementwise := true,
    returns_scalar := false, kwargs_keys := ["eval_points"] }

/-- From `polars_kde/__init__.py`, `kde_dynamic_evals`: registers
`kde_dynamic_evals` with `is_elementwise=True` and forwards no keyword
arguments. -/
def kdeDynamicRegistration : PluginRegistration :=
  { function_name := "kde_dynamic_evals", is_elementwise := true,
    returns_scalar := false, kwargs_keys := [] }

/-- From `polars_kde/__init__.py`: the parameters of the public function
`kde(expr, *, eval_points)`. -/
def kdeParams : List String := ["expr", "eval_points"]

/-- From `polars_kde/__init__.py`: the parameters of the public function
`kde_static_evals(expr, *, eval_points)`. -/
def kdeStaticEvalsParams : List String := ["expr", "eval_points"]

/-- From `polars_kde/__init__.py`: the parameters of the public function
`kde_dynamic_evals(expr, eval_points)`. -/
def kdeDynamicEvalsParams : List String := ["expr", "eval_points"]

/-- From `tests/test_kde.py` line 93 (`test_kde_agg`): the output column of
`kde` has dtype `pl.List(pl.Float32)`. -/
def kdeAggOutputDtype : PlDtype := .list .float32

/-- From `tests/test_kde.py` line 39 (`test_kde_static_evals`): the output
column of `kde_static_evals` has dtype `pl.List(pl.Float32)`. -/
def kdeStaticOutputDtype : PlDtype := .list .float32

/-- From `tests/test_kde.py` line 69 (`test_kde_dynamic`): the output
column of `kde_dynamic_evals` has dtype `pl.List(pl.Float32)`. -/
def kdeDynamicOutputDtype : PlDtype := .list .float32

/-- Helper: a left fold that adds `f` of each element equals the starting
accumulator plus the sum of the mapped list. -/
theorem foldl_add_eq_sum {α : Type} (f : α → ℝ) (l : List α) (a : ℝ) :
    l.foldl (fun acc s => acc + f s) a = a + (l.map f).sum := by
  induction l generalizing a with
  | nil => simp
  | cons x xs ih => simp [List.foldl_cons, ih (a + f x)]; ring

/-- Helper: the accumulated kernel sum equals the mathematical sum. -/
theorem kdeSumAt_eq (sample : List ℝ) (h x : ℝ) :
    kdeSumAt sample h x = (sample.map (fun s => gaussKernel ((x - s) / h))).sum := by
  unfold kdeSumAt
  rw [foldl_add_eq_sum]
  ring

/-- Helper: the evaluator output always has one entry per query point. -/
theorem kdeEvaluate_length (sample : List ℝ) (h : ℝ) (points : List ℝ) :
    (kdeEvaluate sample h points).length = points.length := by
  unfold kdeEvaluate
  split <;> simp

/-- Helper: mapping an `Except` and landing on `ok` means the source was
`ok` and the function was applied. -/
theorem except_map_ok {ε α β : Type} (f : α → β) (e : Except ε α) (b : β)
    (hm : e.map f = .ok b) : ∃ a, e = .ok a ∧ b = f a := by
  cases e with
  | error x => simp [Except.map] at hm
  | ok a => exact ⟨a, rfl, by simpa [Except.map] using hm.symm⟩

/-- Helper: `Except.toOption` returns `some` exactly on `ok`. -/
theorem except_toOption_some {ε α : Type} (e : Except ε α) (a : α)
    (hm : e.toOption = some a) : e = .ok a := by
  cases e with
  | error x => simp [Except.toOption] at hm
  | ok b => simpa [Except.toOption] using hm

/-- Helper: a successful fail-fast assembly produces exactly the per-row
`ok` payloads, each wrapped in `some`. -/
theorem assembleFailFast_ok {κ : Type}
    (rows : List (κ × Except KdeError (List ℝ))) (out : List (Option (List ℝ)))
    (hm : assembleFailFast rows = .ok out) :
    out = rows.map (fun r => r.2.toOption) := by
  induction rows generalizing out with
  | nil =>
    simp [assembleFailFast] at hm
    simp [hm.symm]
  | cons r rest ih =>
    obtain ⟨k, e⟩ := r
    cases e with
    | error x => simp [assembleFailFast] at hm
    | ok d =>
      simp only [assembleFailFast] at hm
      obtain ⟨t, ht, hout⟩ := except_map_ok _ _ _ hm
      simp [hout, ih t ht, Except.toOption]

/-- Helper: any successful assembly (either policy) produces exactly the
per-row `Except.toOption` results. -/
theorem assemble_ok_eq {κ : Type} (policy : FailurePolicy)
    (rows : List (κ × Except KdeError (List ℝ))) (out : List (Option (List ℝ)))
    (hm : assemble policy rows = .ok out) :
    out = rows.map (fun r => r.2.toOption) := by
  cases policy with
  | failFast => exact assembleFailFast_ok rows out hm
  | bestEffort => simpa [assemble] using hm.symm

/-- Helper: `withIdx` pairs element `i` with index `n + i`. -/
theorem withIdx_get {α : Type} (l : List α) (n i : Nat) :
    (withIdx n l).get? i = (l.get? i).map (fun a => (n + i, a)) := by
  induction l generalizing n i with
  | nil => simp [withIdx]
  | cons a rest ih =>
    cases i with
    | zero => simp [withIdx]
    | succ j =>
      simp only [withIdx, List.get?_cons_succ, ih (n + 1) j]
      cases rest.get? j <;> simp <;> omega

/-- Helper: a `some` entry of a successful assembly comes from an `ok` row. -/
theorem assemble_ok_get {κ : Type} (policy : FailurePolicy)
    (rows : List (κ × Except KdeError (List ℝ))) (out : List (Option (List ℝ)))
    (i : Nat) (d : List ℝ)
    (hm : assemble policy rows = .ok out) (hi : out.get? i = some (some d)) :
    ∃ k, rows.get? i = some (k, .ok d) := by
  rw [assemble_ok_eq policy rows out hm, List.get?_map] at hi
  cases hr : rows.get? i with
  | none => rw [hr] at hi; simp at hi
  | some r =>
    rw [hr] at hi
    have hopt : r.2.toOption = some d := by simpa using hi
    have h2 : r.2 = Except.ok d := except_toOption_some r.2 d hopt
    refine ⟨r.1, ?_⟩
    rw [← h2]

/-- Helper: a successful static/dynamic row decomposes into a population,
its bandwidth, and the evaluated densities. -/
theorem evalRow_ok (pop : Option (List ℝ)) (pts d : List ℝ)
    (hm : evalRow pop pts = .ok d) :
    ∃ xs h, pop = some xs ∧ estimateBandwidth xs = .ok h ∧
      d = kdeEvaluate xs h pts := by
  cases pop with
  | none => simp [evalRow] at hm
  | some xs =>
    obtain ⟨h, hh, hd⟩ := except_map_ok _ _ _ hm
    exact ⟨xs, h, rfl, hh, hd⟩

/-- Helper: same decomposition for a dynamic row. -/
theorem evalRowDyn_ok (pop pts : Option (List ℝ)) (d : List ℝ)
    (hm : evalRowDyn pop pts = .ok d) :
    ∃ xs ps h, pop = some xs ∧ pts = some ps ∧
      estimateBandwidth xs = .ok h ∧ d = kdeEvaluate xs h ps := by
  cases pop with
  | none => simp [evalRowDyn] at hm
  | some xs =>
    cases pts with
    | none => simp [evalRowDyn] at hm
    | some ps =>
      obtain ⟨h, hh, hd⟩ := except_map_ok _ _ _ hm
      exact ⟨xs, ps, h, rfl, rfl, hh, hd⟩

/-- Helper: for `n ≥ 2` the Bandwidth Estimator returns the unbiased
sample standard deviation times the Scott factor, with both accumulation
loops rewritten as mathematical sums. -/
theorem estimateBandwidth_eq (xs : List ℝ) (hn : 2 ≤ xs.length) :
    estimateBandwidth xs = .ok
      (Real.sqrt
          ((xs.map (fun v => (v - xs.sum / (xs.length : ℝ)) ^ 2)).sum /
            ((xs.length : ℝ) - 1)) *
        (xs.length : ℝ) ^ (-(1 / 5) : ℝ)) := by
  have h0 : xs.length ≠ 0 := by omega
  have h1 : xs.length ≠ 1 := by omega
  have hsum : xs.foldl (fun acc v => acc + v) 0 = xs.sum := by
    simpa using foldl_add_eq_sum (fun v : ℝ => v) xs 0
  have hssd : ∀ m : ℝ,
      xs.foldl (fun acc v => acc + (v - m) ^ 2) 0 =
        (xs.map (fun v => (v - m) ^ 2)).sum := by
    intro m
    simpa using foldl_add_eq_sum (fun v : ℝ => (v - m) ^ 2) xs 0
  simp only [estimateBandwidth, h0, h1, if_false, ite_false, if_neg, hsum, hssd]

/-- Helper: for nonzero bandwidth the evaluator computes the Gaussian-KDE
density formula at every query point. -/
theorem kdeEvaluate_eq (sample : List ℝ) (h : ℝ) (points : List ℝ)
    (hh : h ≠ 0) :
    kdeEvaluate sample h points =
      points.map (fun x =>
        (1 / ((sample.length : ℝ) * h)) *
          (sample.map (fun s =>
            (1 / Real.sqrt (2 * Real.pi)) *
              Real.exp (-(((x - s) / h) ^ 2) / 2))).sum) := by
  unfold kdeEvaluate
  rw [if_neg hh]
  simp only [kdeEvalPoint, kdeSumAt_eq, gaussKernel]

/-- C1: for every sample, every bandwidth `h > 0` and every query point,
the KDE Kernel Evaluator returns
`density(x) = (1 / (n * h)) * Σ_i φ((x − sample_i) / h)` with
`φ(u) = (1/√(2π)) * exp(−u²/2)` the standard normal kernel (the
accumulation loop modelled over exact reals). -/
theorem kde_density_formula (sample : List ℝ) (h : ℝ) (points : List ℝ)
    (hh : 0 < h) :
    kdeEvaluate sample h points =
      points.map (fun x =>
        (1 / ((sample.length : ℝ) * h)) *
          (sample.map (fun s =>
            (1 / Real.sqrt (2 * Real.pi)) *
              Real.exp (-(((x - s) / h) ^ 2) / 2))).sum) :=
  kdeEvaluate_eq sample h points (ne_of_gt hh)

/-- Witness for C1 at sample `[1, 2]`, bandwidth `1`, query point `0`. -/
theorem kde_density_formula_witness :
    (0 : ℝ) < 1 ∧
      kdeEvaluate [1, 2] 1 [0] =
        ([0] : List ℝ).map (fun x =>
          (1 / ((([1, 2] : List ℝ).length : ℝ) * 1)) *
            (([1, 2] : List ℝ).map (fun s =>
              (1 / Real.sqrt (2 * Real.pi)) *
                Real.exp (-(((x - s) / 1) ^ 2) / 2))).sum) :=
  ⟨by norm_num, kde_density_formula [1, 2] 1 [0] (by norm_num)⟩

/-- C2: for every sample of `n ≥ 2` values the Bandwidth Estimator returns
`h = s * n^(-1/5)` where `s` is the unbiased sample standard deviation
(sum of squared deviations from the mean divided by `n − 1`). -/
theorem bandwidth_scotts_rule (xs : List ℝ) (hn : 2 ≤ xs.length) :
    estimateBandwidth xs = .ok
      (Real.sqrt
          ((xs.map (fun v => (v - xs.sum / (xs.length : ℝ)) ^ 2)).sum /
            ((xs.length : ℝ) - 1)) *
        (xs.length : ℝ) ^ (-(1 / 5) : ℝ)) :=
  estimateBandwidth_eq xs hn

/-- Witness for C2 at the sample `[1, 3]`. -/
theorem bandwidth_scotts_rule_witness :
    2 ≤ ([1, 3] : List ℝ).length ∧
      estimateBandwidth [1, 3] = .ok
        (Real.sqrt
            ((([1, 3] : List ℝ).map (fun v =>
              (v - ([1, 3] : List ℝ).sum / ((([1, 3] : List ℝ).length : ℝ))) ^ 2)).sum /
              ((([1, 3] : List ℝ).length : ℝ) - 1)) *
          ((([1, 3] : List ℝ).length : ℝ)) ^ (-(1 / 5) : ℝ)) :=
  ⟨by norm_num, bandwidth_scotts_rule [1, 3] (by norm_num)⟩

/-- Helper: entry `i` of a zip pairs entry `i` of each list. -/
theorem zip_get {α β : Type} (l1 : List α) (l2 : List β) (i : Nat) :
    (l1.zip l2).get? i =
      (l1.get? i).bind (fun a => (l2.get? i).map (fun b => (a, b))) := by
  induction l1 generalizing l2 i with
  | nil => simp
  | cons a rest ih =>
    cases l2 with
    | nil => simp
    | cons b rest2 =>
      cases i with
      | zero => simp
      | succ j => simpa using ih rest2 j

/-- Helper: a `some` entry of a successful static call comes from the
row-wise evaluation of the same input row. -/
theorem kdeStaticEvals_ok_get (policy : FailurePolicy)
    (pops : List (Option (List ℝ))) (pts : List ℝ)
    (outS : List (Option (List ℝ))) (i : Nat) (d : List ℝ)
    (hm : kdeStaticEvals policy pops pts = .ok outS)
    (hi : outS.get? i = some (some d)) :
    ∃ p, pops.get? i = some p ∧ evalRow p pts = .ok d := by
  obtain ⟨k, hk⟩ := assemble_ok_get policy _ outS i d hm hi
  rw [List.get?_map, withIdx_get] at hk
  cases hp : pops.get? i with
  | none => rw [hp] at hk; simp at hk
  | some p =>
    rw [hp] at hk
    simp only [Option.map_map, Option.map] at hk
    exact ⟨p, rfl, by injection hk with h2; exact congrArg Prod.snd h2⟩

/-- Helper: a `some` entry of a successful dynamic call comes from the
row-wise evaluation of the same rows of both columns. -/
theorem kdeDynamicEvals_ok_get (policy : FailurePolicy)
    (pops evals : List (Option (List ℝ)))
    (outD : List (Option (List ℝ))) (i : Nat) (d : List ℝ)
    (hm : kdeDynamicEvals policy pops evals = .ok outD)
    (hi : outD.get? i = some (some d)) :
    ∃ p e, pops.get? i = some p ∧ evals.get? i = some e ∧
      evalRowDyn p e = .ok d := by
  unfold kdeDynamicEvals at hm
  by_cases hlen : pops.length = evals.length
  · rw [if_pos hlen] at hm
    obtain ⟨k, hk⟩ := assemble_ok_get policy _ outD i d hm hi
    rw [List.get?_map, withIdx_get, zip_get] at hk
    cases hp : pops.get? i with
    | none => rw [hp] at hk; simp at hk
    | some p =>
      rw [hp] at hk
      cases he : evals.get? i with
      | none => rw [he] at hk; simp at hk
      | some e =>
        rw [he] at hk
        simp only [Option.bind, Option.map] at hk
        exact ⟨p, e, rfl, rfl, by injection hk with h2; exact congrArg Prod.snd h2⟩
  · rw [if_neg hlen] at hm
    exact absurd hm (by simp)

/-- Helper: a `some` entry of a successful aggregating call comes from the
evaluation of the group at the same position of the first-seen key order. -/
theorem kdeAgg_ok_get {κ : Type} [DecidableEq κ] (policy : FailurePolicy)
    (grows : List (κ × ℝ)) (pts : List ℝ)
    (outA : List (Option (List ℝ))) (i : Nat) (d : List ℝ)
    (hm : kdeAgg policy grows pts = .ok outA)
    (hi : outA.get? i = some (some d)) :
    ∃ k, (aggKeys grows).get? i = some k ∧
      evalRow (some (groupValues grows k)) pts = .ok d := by
  obtain ⟨k, hk⟩ := assemble_ok_get policy _ outA i d hm hi
  rw [List.get?_map] at hk
  cases hp : (aggKeys grows).get? i with
  | none => rw [hp] at hk; simp at hk
  | some k2 =>
    rw [hp] at hk
    simp only [Option.map] at hk
    injection hk with h2
    refine ⟨k2, rfl, ?_⟩
    have := congrArg Prod.snd h2
    simpa using this

/-- C3: every DensityResult has exactly the length of the EvaluationPoints
sequence that produced it — in static and aggregating mode the shared
`pts`, in dynamic mode the same row's own points — and an empty points
sequence yields an empty result, not an error. -/
theorem density_result_length {κ : Type} [DecidableEq κ]
    (policy : FailurePolicy) (pops evals : List (Option (List ℝ)))
    (pts : List ℝ) (grows : List (κ × ℝ))
    (outS outD outA : List (Option (List ℝ))) (i : Nat)
    (d dd da ps sample : List ℝ) (hbw : ℝ) :
    (kdeStaticEvals policy pops pts = .ok outS →
        outS.get? i = some (some d) → d.length = pts.length)
    ∧ (kdeDynamicEvals policy pops evals = .ok outD →
        outD.get? i = some (some dd) → evals.get? i = some (some ps) →
        dd.length = ps.length)
    ∧ (kdeAgg policy grows pts = .ok outA →
        outA.get? i = some (some da) → da.length = pts.length)
    ∧ kdeEvaluate sample hbw [] = [] := by
  refine ⟨?_, ?_, ?_, ?_⟩
  · intro hm hi
    obtain ⟨p, hp, hrow⟩ := kdeStaticEvals_ok_get policy pops pts outS i d hm hi
    obtain ⟨xs, h, hpx, hh, hd⟩ := evalRow_ok p pts d hrow
    rw [hd, kdeEvaluate_length]
  · intro hm hi hps
    obtain ⟨p, e, hp, he, hrow⟩ :=
      kdeDynamicEvals_ok_get policy pops evals outD i dd hm hi
    have hee : e = some ps := by rw [he] at hps; injection hps
    obtain ⟨xs, ps2, h, hpx, hex, hh, hd⟩ := evalRowDyn_ok p e dd hrow
    have hps2 : ps2 = ps := by
      rw [hee] at hex
      injection hex with hq
      exact hq.symm
    rw [hd, kdeEvaluate_length, hps2]
  · intro hm hi
    obtain ⟨k, hk, hrow⟩ := kdeAgg_ok_get policy grows pts outA i da hm hi
    obtain ⟨xs, h, hpx, hh, hd⟩ := evalRow_ok _ pts da hrow
    rw [hd, kdeEvaluate_length]
  · unfold kdeEvaluate
    split <;> simp

/-- Witness for C3: a singleton population evaluated in all three modes. -/
theorem density_result_length_witness :
    ([0, 0] : List ℝ).length = ([5, 6] : List ℝ).length
    ∧ ([0] : List ℝ).length = ([7] : List ℝ).length
    ∧ ([0, 0] : List ℝ).length = ([5, 6] : List ℝ).length
    ∧ kdeEvaluate [1] 0 [] = [] := by
  have hbw1 : estimateBandwidth [(1 : ℝ)] = .ok 0 := by
    simp [estimateBandwidth]
  have hbw2 : estimateBandwidth [(2 : ℝ)] = .ok 0 := by
    simp [estimateBandwidth]
  have H := density_result_length FailurePolicy.bestEffort
    [some [(1 : ℝ)]] [some [(7 : ℝ)]] [(5 : ℝ), 6] [((0 : Nat), (2 : ℝ))]
    [some [0, 0]] [some [0]] [some [0, 0]] 0
    [(0 : ℝ), 0] [(0 : ℝ)] [(0 : ℝ), 0] [(7 : ℝ)] [(1 : ℝ)] 0
  refine ⟨H.1 ?_ ?_, H.2.1 ?_ ?_ ?_, H.2.2.1 ?_ ?_, H.2.2.2⟩
  · simp [kdeStaticEvals, assemble, withIdx, evalRow, hbw1, kdeEvaluate,
      Except.map, Except.toOption]
  · simp
  · simp [kdeDynamicEvals, assemble, withIdx, evalRowDyn, hbw1, kdeEvaluate,
      Except.map, Except.toOption]
  · simp
  · simp
  · simp [kdeAgg, assemble, aggKeys, firstSeen, groupValues, evalRow, hbw2,
      kdeEvaluate, Except.map, Except.toOption]
  · simp

/-- Helper: the sum of a constant list. -/
theorem sum_of_const (xs : List ℝ) (c : ℝ) (hc : ∀ x ∈ xs, x = c) :
    xs.sum = (xs.length : ℝ) * c := by
  induction xs with
  | nil => simp
  | cons a rest ih =>
    have ha : a = c := hc a (by simp)
    have hr : ∀ x ∈ rest, x = c := fun x hx => hc x (by simp [hx])
    simp only [List.sum_cons, List.length_cons, ha, ih hr]
    push_cast
    ring

/-- C4: a degenerate sample (one value, or several identical values) gets
bandwidth `0`, and the evaluator's zero-bandwidth policy returns `0` at
every query point — all entries are the finite value `0`, never
`NaN`/`Inf`, and no error is signalled. -/
theorem degenerate_bandwidth (xs : List ℝ) (c : ℝ) (points : List ℝ)
    (hne : xs ≠ []) (hconst : ∀ x ∈ xs, x = c) :
    estimateBandwidth xs = .ok 0
    ∧ kdeEvaluate xs 0 points = points.map (fun _ => 0)
    ∧ ∀ y ∈ kdeEvaluate xs 0 points, y = 0 := by
  have hzero : kdeEvaluate xs 0 points = points.map (fun _ => 0) := by
    simp [kdeEvaluate]
  refine ⟨?_, hzero, ?_⟩
  · have hlen : xs.length ≠ 0 := by simpa using hne
    rcases Nat.lt_or_ge xs.length 2 with hl | hl
    · have h1 : xs.length = 1 := by omega
      simp [estimateBandwidth, h1]
    · have hnr : (xs.length : ℝ) ≠ 0 := Nat.cast_ne_zero.mpr hlen
      have hmean : xs.sum / (xs.length : ℝ) = c := by
        rw [sum_of_const xs c hconst]
        field_simp
      have hdev : (xs.map (fun v => (v - xs.sum / (xs.length : ℝ)) ^ 2)).sum = 0 := by
        apply List.sum_eq_zero
        intro y hy
        rw [List.mem_map] at hy
        obtain ⟨v, hv, rfl⟩ := hy
        rw [hconst v hv, hmean]
        ring
      rw [estimateBandwidth_eq xs hl, hdev]
      simp
  · intro y hy
    rw [hzero, List.mem_map] at hy
    obtain ⟨x, hx, rfl⟩ := hy
    rfl

/-- Witness for C4 at the two-element constant sample `[3, 3]`. -/
theorem degenerate_bandwidth_witness :
    estimateBandwidth [(3 : ℝ), 3] = .ok 0
    ∧ kdeEvaluate [(3 : ℝ), 3] 0 [1] = [0] := by
  have H := degenerate_bandwidth [(3 : ℝ), 3] 3 [1] (by simp)
    (by intro x hx; rcases List.mem_cons.mp hx with h | h
        · exact h
        · simpa using h)
  refine ⟨H.1, ?_⟩
  rw [H.2.1]
  simp

/-- Helper: `firstSeen` keeps exactly the keys of the input. -/
theorem firstSeen_mem {κ : Type} [DecidableEq κ] (l : List κ) (k : κ) :
    k ∈ firstSeen l ↔ k ∈ l := by
  induction l with
  | nil => simp [firstSeen]
  | cons a rest ih =>
    simp only [firstSeen, List.mem_cons, List.mem_filter, ih,
      decide_eq_true_eq]
    by_cases hk : k = a <;> simp [hk]

/-- Helper: `firstSeen` lists each key at most once. -/
theorem firstSeen_nodup {κ : Type} [DecidableEq κ] (l : List κ) :
    (firstSeen l).Nodup := by
  induction l with
  | nil => simp [firstSeen]
  | cons a rest ih =>
    simp only [firstSeen]
    rw [List.nodup_cons]
    refine ⟨?_, List.Nodup.filter _ ih⟩
    intro hmem
    rw [List.mem_filter] at hmem
    simp at hmem

/-- Helper: `firstSeen` lists keys in order of first appearance: positions
earlier in the output have strictly smaller first-occurrence index in the
input. -/
theorem firstSeen_order {κ : Type} [DecidableEq κ] (l : List κ) :
    (firstSeen l).Pairwise (fun x y => l.indexOf x < l.indexOf y) := by
  induction l with
  | nil => simp [firstSeen]
  | cons a rest ih =>
    simp only [firstSeen]
    rw [List.pairwise_cons]
    constructor
    · intro b hb
      rw [List.mem_filter] at hb
      have hba : b ≠ a := by simpa using hb.2
      rw [List.indexOf_cons_self, List.indexOf_cons_ne _ (Ne.symm hba)]
      omega
    · have hp : (List.filter (fun x => x ≠ a) (firstSeen rest)).Pairwise
          (fun x y => rest.indexOf x < rest.indexOf y) :=
        List.Pairwise.filter _ ih
      refine List.Pairwise.imp_of_mem ?_ hp
      intro x y hx hy hlt
      have hxa : x ≠ a := by simpa using (List.mem_filter.mp hx).2
      have hya : y ≠ a := by simpa using (List.mem_filter.mp hy).2
      rw [List.indexOf_cons_ne _ (Ne.symm hxa), List.indexOf_cons_ne _ (Ne.symm hya)]
      omega

/-- C5: output order matches input order.  Aggregating mode produces one
entry per distinct group key — the keys are exactly the input's keys, with
no duplicates, ordered by first appearance, and entry `i` is computed from
the group of key number `i` in that order; in static and dynamic mode
output row `i` is the result computed from input row `i`. -/
theorem output_order {κ : Type} [DecidableEq κ]
    (policy : FailurePolicy) (pops evals : List (Option (List ℝ)))
    (pts : List ℝ) (grows : List (κ × ℝ))
    (outS outD outA : List (Option (List ℝ))) (i : Nat) (k : κ) :
    (kdeAgg policy grows pts = .ok outA →
        outA.get? i = ((aggKeys grows).get? i).map
          (fun g => (evalRow (some (groupValues grows g)) pts).toOption))
    ∧ (aggKeys grows).Nodup
    ∧ (k ∈ aggKeys grows ↔ k ∈ grows.map (fun r => r.1))
    ∧ (aggKeys grows).Pairwise (fun x y =>
        (grows.map (fun r => r.1)).indexOf x <
          (grows.map (fun r => r.1)).indexOf y)
    ∧ (kdeStaticEvals policy pops pts = .ok outS →
        outS.get? i = (pops.get? i).map (fun p => (evalRow p pts).toOption))
    ∧ (kdeDynamicEvals policy pops evals = .ok outD →
        outD.get? i = ((pops.zip evals).get? i).map
          (fun pe => (evalRowDyn pe.1 pe.2).toOption)) := by
  refine ⟨?_, firstSeen_nodup _, firstSeen_mem _ k, firstSeen_order _, ?_, ?_⟩
  · intro hm
    rw [assemble_ok_eq policy _ outA hm, List.get?_map, List.get?_map]
    cases (aggKeys grows).get? i <;> simp
  · intro hm
    rw [assemble_ok_eq policy _ outS hm, List.get?_map, List.get?_map,
      withIdx_get]
    cases pops.get? i <;> simp
  · intro hm
    unfold kdeDynamicEvals at hm
    by_cases hlen : pops.length = evals.length
    · rw [if_pos hlen] at hm
      rw [assemble_ok_eq policy _ outD hm, List.get?_map, List.get?_map,
        withIdx_get]
      cases (pops.zip evals).get? i <;> simp
    · rw [if_neg hlen] at hm
      exact absurd hm (by simp)

/-- Witness for C5 with one-row inputs in each mode. -/
theorem output_order_witness :
    (([some [(0 : ℝ), 0]] : List (Option (List ℝ))).get? 0 =
        ((aggKeys [((0 : Nat), (2 : ℝ))]).get? 0).map
          (fun g => (evalRow (some (groupValues [((0 : Nat), (2 : ℝ))] g))
            [(5 : ℝ), 6]).toOption))
    ∧ (([some [(0 : ℝ), 0]] : List (Option (List ℝ))).get? 0 =
        (([some [(1 : ℝ)]] : List (Option (List ℝ))).get? 0).map
          (fun p => (evalRow p [(5 : ℝ), 6]).toOption))
    ∧ (([some [(0 : ℝ)]] : List (Option (List ℝ))).get? 0 =
        ((([some [(1 : ℝ)]] : List (Option (List ℝ))).zip
            ([some [(7 : ℝ)]] : List (Option (List ℝ)))).get? 0).map
          (fun pe => (evalRowDyn pe.1 pe.2).toOption)) := by
  have hbw1 : estimateBandwidth [(1 : ℝ)] = .ok 0 := by
    simp [estimateBandwidth]
  have hbw2 : estimateBandwidth [(2 : ℝ)] = .ok 0 := by
    simp [estimateBandwidth]
  have H := output_order FailurePolicy.bestEffort
    [some [(1 : ℝ)]] [some [(7 : ℝ)]] [(5 : ℝ), 6] [((0 : Nat), (2 : ℝ))]
    [some [(0 : ℝ), 0]] [some [(0 : ℝ)]] [some [(0 : ℝ), 0]] 0 0
  refine ⟨H.1 ?_, H.2.2.2.2.1 ?_, H.2.2.2.2.2 ?_⟩
  · simp [kdeAgg, assemble, aggKeys, firstSeen, groupValues, evalRow, hbw2,
      kdeEvaluate, Except.map, Except.toOption]
  · simp [kdeStaticEvals, assemble, withIdx, evalRow, hbw1, kdeEvaluate,
      Except.map, Except.toOption]
  · simp [kdeDynamicEvals, assemble, withIdx, evalRowDyn, hbw1, kdeEvaluate,
      Except.map, Except.toOption]

/-- C6: for a population of size at least 2 and positive bandwidth, every
density value returned by the evaluator is non-negative. -/
theorem density_nonneg (xs : List ℝ) (h : ℝ) (pts : List ℝ)
    (hn : 2 ≤ xs.length) (hh : 0 < h) :
    ∀ y ∈ kdeEvaluate xs h pts, 0 ≤ y := by
  intro y hy
  rw [kdeEvaluate_eq xs h pts (ne_of_gt hh), List.mem_map] at hy
  obtain ⟨x, hx, rfl⟩ := hy
  apply mul_nonneg
  · exact div_nonneg zero_le_one
      (mul_nonneg (Nat.cast_nonneg _) (le_of_lt hh))
  · apply List.sum_nonneg
    intro z hz
    rw [List.mem_map] at hz
    obtain ⟨s, hs, rfl⟩ := hz
    exact mul_nonneg (div_nonneg zero_le_one (Real.sqrt_nonneg _))
      (le_of_lt (Real.exp_pos _))

/-- Witness for C6 at sample `[1, 2]`, bandwidth `1`, query point `0`. -/
theorem density_nonneg_witness : 0 ≤ kdeEvalPoint [(1 : ℝ), 2] 1 0 := by
  have hmem : kdeEvalPoint [(1 : ℝ), 2] 1 0 ∈ kdeEvaluate [(1 : ℝ), 2] 1 [0] := by
    simp [kdeEvaluate]
  exact density_nonneg [(1 : ℝ), 2] 1 [0] (by norm_num) (by norm_num) _ hmem

/-- C7 counterexample: the repository's tests assert that the output
column of each of the three entry points has dtype `pl.List(pl.Float32)`
(`tests/test_kde.py` lines 39, 69, 93), so the entries are sequences of
float32 values, not float64 as claimed. -/
theorem output_dtype_not_float64 :
    kdeAggOutputDtype ≠ PlDtype.list .float64
    ∧ kdeStaticOutputDtype ≠ PlDtype.list .float64
    ∧ kdeDynamicOutputDtype ≠ PlDtype.list .float64 := by
  refine ⟨?_, ?_, ?_⟩ <;> decide

/-- C7 (amended): each of the three entry points returns a column whose
entries are ordered sequences of float32 values. -/
theorem output_dtype_float32 :
    kdeAggOutputDtype = PlDtype.list .float32
    ∧ kdeStaticOutputDtype = PlDtype.list .float32
    ∧ kdeDynamicOutputDtype = PlDtype.list .float32 :=
  ⟨rfl, rfl, rfl⟩

/-- Helper: fail-fast assembly never produces a `ShapeMismatch` — its only
error is the first row's error with its key. -/
theorem assembleFailFast_no_shape {κ : Type}
    (rows : List (κ × Except KdeError (List ℝ))) :
    assembleFailFast rows ≠ .error CallError.shapeMismatch := by
  induction rows with
  | nil => simp [assembleFailFast]
  | cons r rest ih =>
    obtain ⟨k, e⟩ := r
    cases e with
    | error x => simp [assembleFailFast]
    | ok d =>
      simp only [assembleFailFast]
      intro hm
      cases hr : assembleFailFast rest with
      | error c =>
        rw [hr] at hm
        simp only [Except.map] at hm
        injection hm with hc
        exact ih (by rw [hr, hc])
      | ok t =>
        rw [hr] at hm
        simp [Except.map] at hm

/-- C8: in dynamic mode a row-count mismatch between the populations and
eval-points columns always fails the whole call with `ShapeMismatch`,
whatever the policy; with equal row counts the call never fails with
`ShapeMismatch`, whatever the per-row sequence lengths. -/
theorem dynamic_shape_mismatch (policy : FailurePolicy)
    (pops evals : List (Option (List ℝ))) :
    (pops.length ≠ evals.length →
        kdeDynamicEvals policy pops evals = .error .shapeMismatch)
    ∧ (pops.length = evals.length →
        kdeDynamicEvals policy pops evals ≠ .error .shapeMismatch) := by
  constructor
  · intro hne
    unfold kdeDynamicEvals
    rw [if_neg hne]
  · intro heq
    unfold kdeDynamicEvals
    rw [if_pos heq]
    cases policy with
    | bestEffort => simp [assemble]
    | failFast => exact assembleFailFast_no_shape _

/-- Witness for C8: mismatched and matched row counts. -/
theorem dynamic_shape_mismatch_witness :
    kdeDynamicEvals .failFast [some [(1 : ℝ)]] [] = .error .shapeMismatch
    ∧ kdeDynamicEvals .failFast ([] : List (Option (List ℝ))) [] ≠
        .error .shapeMismatch :=
  ⟨(dynamic_shape_mismatch .failFast [some [(1 : ℝ)]] []).1 (by simp),
   (dynamic_shape_mismatch .failFast [] []).2 rfl⟩

/-- Helper: under fail-fast, once every earlier row succeeded, the first
erroring row aborts the assembly with its key and error. -/
theorem assembleFailFast_append {κ : Type}
    (pre post : List (κ × Except KdeError (List ℝ))) (k : κ) (e : KdeError)
    (hpre : ∀ r ∈ pre, ∃ d, r.2 = .ok d) :
    assembleFailFast (pre ++ (k, .error e) :: post) =
      .error (.rowError k e) := by
  induction pre with
  | nil => simp [assembleFailFast]
  | cons r rest ih =>
    obtain ⟨d, hd⟩ := hpre r (by simp)
    obtain ⟨kr, er⟩ := r
    simp only at hd
    subst hd
    have ih2 := ih (fun r hr => hpre r (by simp [hr]))
    simp only [List.cons_append, assembleFailFast, List.append_eq, ih2,
      Except.map]

/-- C9 counterexample: no public entry point of the repository accepts a
failure-policy argument — each one's parameters are exactly the column
expression(s) and the evaluation points, and the only keyword forwarded to
the plugin is `eval_points` — so the failure policy is not selectable by
the caller through the repository's API. -/
theorem no_policy_parameter :
    kdeParams = ["expr", "eval_points"]
    ∧ kdeStaticEvalsParams = ["expr", "eval_points"]
    ∧ kdeDynamicEvalsParams = ["expr", "eval_points"]
    ∧ kdeRegistration.kwargs_keys = ["eval_points"]
    ∧ kdeStaticRegistration.kwargs_keys = ["eval_points"]
    ∧ kdeDynamicRegistration.kwargs_keys = []
    ∧ "failure_policy" ∉ kdeParams
    ∧ "failure_policy" ∉ kdeStaticEvalsParams
    ∧ "failure_policy" ∉ kdeDynamicEvalsParams
    ∧ "failure_policy" ∉ kdeRegistration.kwargs_keys
    ∧ "failure_policy" ∉ kdeStaticRegistration.kwargs_keys
    ∧ "failure_policy" ∉ kdeDynamicRegistration.kwargs_keys := by
  refine ⟨rfl, rfl, rfl, rfl, rfl, rfl, ?_, ?_, ?_, ?_, ?_, ?_⟩ <;> decide

/-- C9 (amended): the engine's driver, as specified, distinguishes the two
failure policies for per-row errors — under fail-fast, with earlier rows
succeeding, the first failing row aborts the whole call reporting the
offending key and error; under best-effort only that row's output becomes
null while every other row's result is kept; an empty population raises
`EmptyPopulation` and a null row `MissingInput` — but the repository's
three public entry points take no failure-policy parameter, so the policy
is not caller-configurable through the exposed API. -/
theorem failure_policies {κ : Type}
    (pre post : List (κ × Except KdeError (List ℝ)))
    (k : κ) (e : KdeError) (pts : List ℝ)
    (hpre : ∀ r ∈ pre, ∃ d, r.2 = .ok d) :
    assemble .failFast (pre ++ (k, .error e) :: post) =
        .error (.rowError k e)
    ∧ assemble .bestEffort (pre ++ (k, .error e) :: post) =
        .ok ((pre.map (fun r => r.2.toOption)) ++
          none :: (post.map (fun r => r.2.toOption)))
    ∧ (∀ r ∈ pre, (r.2.toOption).isSome)
    ∧ evalRow (some []) pts = .error .emptyPopulation
    ∧ evalRow none pts = .error .missingInput
    ∧ "failure_policy" ∉ kdeParams
    ∧ "failure_policy" ∉ kdeStaticEvalsParams
    ∧ "failure_policy" ∉ kdeDynamicEvalsParams := by
  refine ⟨assembleFailFast_append pre post k e hpre, ?_, ?_, ?_, ?_,
    by decide, by decide, by decide⟩
  · simp [assemble, Except.toOption]
  · intro r hr
    obtain ⟨d, hd⟩ := hpre r hr
    rw [hd]
    rfl
  · simp [evalRow, estimateBandwidth, Except.map]
  · rfl

/-- Witness for C9: one succeeding row, one failing row, one trailing row. -/
theorem failure_policies_witness :
    assemble .failFast
        [((0 : Nat), Except.ok [(1 : ℝ)]), (1, .error .emptyPopulation),
          (2, .ok [])] = .error (.rowError 1 .emptyPopulation)
    ∧ assemble .bestEffort
        [((0 : Nat), Except.ok [(1 : ℝ)]), (1, .error .emptyPopulation),
          (2, .ok [])] = .ok [some [(1 : ℝ)], none, some []]
    ∧ evalRow (some []) [(0 : ℝ)] = .error .emptyPopulation
    ∧ evalRow none [(0 : ℝ)] = .error .missingInput := by
  have H := failure_policies [((0 : Nat), Except.ok [(1 : ℝ)])]
    [((2 : Nat), Except.ok ([] : List ℝ))] 1 .emptyPopulation [(0 : ℝ)]
    (by intro r hr
        rw [List.mem_singleton] at hr
        subst hr
        exact ⟨[(1 : ℝ)], rfl⟩)
  refine ⟨?_, ?_, H.2.2.2.1, H.2.2.2.2.1⟩
  · simpa using H.1
  · simpa [Except.toOption] using H.2.1

/-- Helper: mapping only the payload of index-tagged rows forgets the
indices. -/
theorem withIdx_map_snd {α β : Type} (g : α → β) (n : Nat) (l : List α) :
    (withIdx n l).map (fun r => g r.2) = l.map g := by
  induction l generalizing n with
  | nil => simp [withIdx]
  | cons a rest ih => simp [withIdx, ih]

/-- C10: `kde_static_evals` and `kde_dynamic_evals` are registered as
elementwise functions and their drivers compute each output row from the
corresponding input row alone (plus, for static mode, the one shared
points sequence); `kde` is registered as a non-elementwise, non-scalar
aggregation and its driver produces one entry per group in first-seen key
order. -/
theorem registration_modes {κ : Type} [DecidableEq κ]
    (pops evals : List (Option (List ℝ))) (pts : List ℝ)
    (grows : List (κ × ℝ)) :
    kdeStaticRegistration.is_elementwise = true
    ∧ kdeDynamicRegistration.is_elementwise = true
    ∧ kdeRegistration.is_elementwise = false
    ∧ kdeRegistration.returns_scalar = false
    ∧ kdeStaticEvals .bestEffort pops pts =
        .ok (pops.map (fun p => (evalRow p pts).toOption))
    ∧ (pops.length = evals.length →
        kdeDynamicEvals .bestEffort pops evals =
          .ok ((pops.zip evals).map (fun pe => (evalRowDyn pe.1 pe.2).toOption)))
    ∧ kdeAgg .bestEffort grows pts =
        .ok ((aggKeys grows).map
          (fun g => (evalRow (some (groupValues grows g)) pts).toOption)) := by
  refine ⟨rfl, rfl, rfl, rfl, ?_, ?_, ?_⟩
  · simp only [kdeStaticEvals, assemble, List.map_map]
    rw [show ((fun r : Nat × Except KdeError (List ℝ) => r.2.toOption) ∘
        (fun r : Nat × Option (List ℝ) => (r.1, evalRow r.2 pts))) =
      (fun r : Nat × Option (List ℝ) => (evalRow r.2 pts).toOption) from rfl]
    rw [withIdx_map_snd (fun p => (evalRow p pts).toOption) 0 pops]
  · intro heq
    simp only [kdeDynamicEvals, if_pos heq, assemble, List.map_map]
    rw [show ((fun r : Nat × Except KdeError (List ℝ) => r.2.toOption) ∘
        (fun r : Nat × (Option (List ℝ) × Option (List ℝ)) =>
          (r.1, evalRowDyn r.2.1 r.2.2))) =
      (fun r : Nat × (Option (List ℝ) × Option (List ℝ)) =>
        (evalRowDyn r.2.1 r.2.2).toOption) from rfl]
    rw [withIdx_map_snd (fun pe => (evalRowDyn pe.1 pe.2).toOption) 0
      (pops.zip evals)]
  · simp only [kdeAgg, assemble, List.map_map]
    rfl

/-- Witness for C10 on empty columns. -/
theorem registration_modes_witness :
    kdeRegistration.is_elementwise = false
    ∧ kdeDynamicEvals .bestEffort ([] : List (Option (List ℝ))) [] = .ok [] := by
  have H := registration_modes ([] : List (Option (List ℝ)))
    ([] : List (Option (List ℝ))) ([] : List ℝ) ([] : List (Nat × ℝ))
  exact ⟨H.2.2.1, by simpa using H.2.2.2.2.2.1 rfl⟩

end PolarsKde
